import Mathlib

/-!
Verification of the Marstek CT meter protocol codec and the fetch/retry
state machine of `custom_components/marstek_ct/api.py`, shallowly embedded
in Lean.

Modelling conventions:
* bytes are natural numbers, byte strings are `List ℕ`;
* Python strings are Lean `String`s; `str.encode("ascii")` is `encodeAscii`;
* Python `dict`s (built here in a fixed insertion order, without key
  collisions) are association lists `List (String × Value)`;
* the unbounded `while True` loop resolving the self-referential length
  field is embedded with explicit fuel (`lengthLoop`); the theorems below
  prove that every fuel of at least 2 reaches the exact fixed point, so the
  bounded and the unbounded loops agree;
* the network is an oracle `ℕ → Outcome` giving each attempt's result, and
  `fetch_data` additionally returns the list of `time.sleep` durations it
  performed, in order.
-/

namespace MarstekCt

/-- Control byte `SOH = 0x01`. -/
def SOH : ℕ := 0x01

/-- Control byte `STX = 0x02`. -/
def STX : ℕ := 0x02

/-- Control byte `ETX = 0x03`. -/
def ETX : ℕ := 0x03

/-- Ascii code of the `"|"` separator. -/
def pipeByte : ℕ := 124

/-- Decimal digits of `n`, least significant first, with explicit fuel;
`natDigitsAux n n` is total because `n / 10 < n` for positive `n`. -/
def natDigitsAux : ℕ → ℕ → List ℕ
  | 0, _ => []
  | fuel + 1, n => if n = 0 then [] else n % 10 :: natDigitsAux fuel (n / 10)

/-- Decimal digits of `n`, least significant first. -/
def natDigits (n : ℕ) : List ℕ := natDigitsAux n n

/-- Ascii bytes of Python `str(n)` for a natural number `n`. -/
def natDecimalBytes (n : ℕ) : List ℕ :=
  if n = 0 then [48] else ((natDigits n).reverse).map (fun d => 48 + d)

/-- Length of Python `str(n)`, i.e. the decimal digit count of `n`. -/
def numDigits (n : ℕ) : ℕ := (natDecimalBytes n).length

/-- Number denoted by a string of ascii decimal digit bytes. -/
def decodeDecimal (bs : List ℕ) : ℕ :=
  bs.foldl (fun acc b => acc * 10 + (b - 48)) 0

/-- Ascii byte of one lowercase hexadecimal digit (`0`-`9`, `a`-`f`). -/
def hexDigitByte (d : ℕ) : ℕ := if d < 10 then 48 + d else 87 + d

/-- Ascii bytes of Python `f"{n:02x}"` for `n < 256`: two lowercase
hexadecimal digits. -/
def hexByte (n : ℕ) : List ℕ := [hexDigitByte (n / 16), hexDigitByte (n % 16)]

/-- Value of one lowercase hexadecimal ascii digit byte. -/
def hexVal (b : ℕ) : ℕ := if b ≤ 57 then b - 48 else b - 87

/-- Decode two lowercase hexadecimal ascii digit bytes back to one byte. -/
def decodeHexPair : List ℕ → ℕ
  | [a, b] => hexVal a * 16 + hexVal b
  | _ => 0

/-- Running XOR over a byte string, as in the checksum loop of
`_build_payload` (`xor_val = 0; for b in payload: xor_val ^= b`). -/
def xorAll (bs : List ℕ) : ℕ := bs.foldl Nat.xor 0

/-- The five identifying strings handed to `MarstekCtApi.__init__`, in the
constructor's parameter order. -/
structure Identity where
  host : String
  device_type : String
  battery_mac : String
  ct_mac : String
  ct_type : String

/-- The string `SEPARATOR + SEPARATOR.join(message_fields)` built in
`_build_payload`: the fields are device type, battery mac, ct type, ct mac
and the two literal `"0"` fields, joined with `"|"` and prefixed by `"|"`. -/
def messageString (idn : Identity) : String :=
  "|" ++ String.intercalate "|"
    [idn.device_type, idn.battery_mac, idn.ct_type, idn.ct_mac, "0", "0"]

/-- Python `str.encode("ascii")`: the code points of the string, provided
every one of them is below 128; `none` models the `UnicodeEncodeError`. -/
def encodeAscii (s : String) : Option (List ℕ) :=
  if s.toList.all (fun c => decide (c.toNat < 128)) then
    some (s.toList.map Char.toNat)
  else none

/-- The `while True` loop of `_build_payload` resolving the length string,
with explicit fuel; `cur` is the number denoted by `length_str`, and one
step recomputes `total_length = base_size_without_len + len(length_str)`
and stops as soon as the value (equivalently, its decimal string) is
unchanged. -/
def lengthLoop (base : ℕ) : ℕ → ℕ → ℕ
  | 0, cur => cur
  | fuel + 1, cur =>
    let total := base + numDigits cur
    if total = cur then cur else lengthLoop base fuel total

/-- `base_size_without_len = 1 + 1 + len(message_bytes) + 1 + 2` in
`_build_payload`: SOH, STX, message, ETX and the two checksum digits. -/
def baseSizeWithoutLen (msg : List ℕ) : ℕ := 1 + 1 + msg.length + 1 + 2

/-- The resolved length value for a given base size.  The source iterates
`while True` from `str(base + len(str(base)))`; fuel 2 provably reaches the
exact fixed point (`resolvedLength_fix`, `lengthLoop_eq_resolvedLength`),
so this bounded form agrees with the unbounded loop. -/
def resolvedLength (base : ℕ) : ℕ :=
  lengthLoop base 2 (base + numDigits base)

/-- Value denoted by the `length_str` embedded in the frame for a message. -/
def frameLength (msg : List ℕ) : ℕ := resolvedLength (baseSizeWithoutLen msg)

/-- Frame bytes before the checksum digits:
`SOH STX <length ascii> <message> ETX`. -/
def frameBody (msg : List ℕ) : List ℕ :=
  [SOH, STX] ++ natDecimalBytes (frameLength msg) ++ msg ++ [ETX]

/-- Complete query frame: the body followed by the two lowercase
hexadecimal digits of the XOR of every body byte. -/
def buildFrame (msg : List ℕ) : List ℕ :=
  frameBody msg ++ hexByte (xorAll (frameBody msg))

/-- `MarstekCtApi._build_payload`; `none` models the `UnicodeEncodeError`
raised when an identifying string is not pure ascii. -/
def build_payload (idn : Identity) : Option (List ℕ) :=
  (encodeAscii (messageString idn)).map buildFrame

theorem natDigitsAux_eq_digits (fuel : ℕ) :
    ∀ n, n ≤ fuel → natDigitsAux fuel n = Nat.digits 10 n := by
  induction fuel with
  | zero =>
    intro n h
    have hn : n = 0 := Nat.le_zero.mp h
    subst hn
    simp [natDigitsAux]
  | succ fuel ih =>
    intro n h
    by_cases hn : n = 0
    · subst hn; simp [natDigitsAux]
    · have hpos : 0 < n := Nat.pos_of_ne_zero hn
      have hdiv : n / 10 ≤ fuel := by
        have : n / 10 < n := Nat.div_lt_self hpos (by norm_num)
        omega
      rw [natDigitsAux, if_neg hn, ih _ hdiv,
        Nat.digits_def' (by norm_num : (1:ℕ) < 10) hpos]

theorem natDigits_eq_digits (n : ℕ) : natDigits n = Nat.digits 10 n :=
  natDigitsAux_eq_digits n n le_rfl

theorem numDigits_zero : numDigits 0 = 1 := rfl

theorem numDigits_eq_log (n : ℕ) (hn : n ≠ 0) :
    numDigits n = Nat.log 10 n + 1 := by
  unfold numDigits natDecimalBytes
  rw [if_neg hn]
  rw [List.length_map, List.length_reverse, natDigits_eq_digits,
    Nat.digits_len 10 n (by norm_num) hn]

theorem one_le_numDigits (n : ℕ) : 1 ≤ numDigits n := by
  by_cases hn : n = 0
  · subst hn; simp [numDigits_zero]
  · rw [numDigits_eq_log n hn]; omega

theorem numDigits_mono {m n : ℕ} (h : m ≤ n) : numDigits m ≤ numDigits n := by
  by_cases hm : m = 0
  · subst hm; exact one_le_numDigits n
  · have hn : n ≠ 0 := by omega
    rw [numDigits_eq_log m hm, numDigits_eq_log n hn]
    have := Nat.log_mono_right (b := 10) h
    omega

theorem lt_pow_numDigits (n : ℕ) : n < 10 ^ numDigits n := by
  by_cases hn : n = 0
  · subst hn; simp [numDigits_zero]
  · rw [numDigits_eq_log n hn]
    exact Nat.lt_pow_succ_log_self (by norm_num) n

theorem numDigits_le_of_lt_pow {n k : ℕ} (hk : 1 ≤ k) (h : n < 10 ^ k) :
    numDigits n ≤ k := by
  by_cases hn : n = 0
  · subst hn; simpa [numDigits_zero] using hk
  · rw [numDigits_eq_log n hn]
    have := (Nat.lt_pow_iff_log_lt (by norm_num : (1:ℕ) < 10) hn).mp h
    omega

theorem numDigits_lt_pow_self (k : ℕ) : k < 10 ^ k :=
  lt_of_lt_of_le (Nat.lt_two_pow k) (Nat.pow_le_pow_left (by norm_num) k)

theorem numDigits_base_add (base : ℕ) :
    numDigits (base + numDigits base) ≤ numDigits base + 1 := by
  apply numDigits_le_of_lt_pow (by omega)
  have h1 : base < 10 ^ numDigits base := lt_pow_numDigits base
  have h2 : numDigits base < 10 ^ numDigits base :=
    numDigits_lt_pow_self (numDigits base)
  have h3 : 10 ^ (numDigits base + 1) = 10 ^ numDigits base * 10 := by
    rw [pow_succ]
  omega

theorem numDigits_base_add_one (base : ℕ)
    (h : numDigits (base + numDigits base) = numDigits base + 1) :
    numDigits (base + numDigits base + 1) = numDigits base + 1 := by
  have hle : numDigits base + 1 ≤ numDigits (base + numDigits base + 1) := by
    have := numDigits_mono
      (show base + numDigits base ≤ base + numDigits base + 1 by omega)
    omega
  have hge : numDigits (base + numDigits base + 1) ≤ numDigits base + 1 := by
    apply numDigits_le_of_lt_pow (by omega)
    have h1 : base < 10 ^ numDigits base := lt_pow_numDigits base
    have h2 : numDigits base < 10 ^ numDigits base :=
      numDigits_lt_pow_self (numDigits base)
    have h3 : 10 ^ (numDigits base + 1) = 10 ^ numDigits base * 10 := by
      rw [pow_succ]
    omega
  omega

theorem lengthLoop_succ (base fuel cur : ℕ) :
    lengthLoop base (fuel + 1) cur =
      if base + numDigits cur = cur then cur
      else lengthLoop base fuel (base + numDigits cur) := rfl

theorem lengthLoop_of_fix {base cur : ℕ} (h : base + numDigits cur = cur) :
    ∀ fuel, lengthLoop base fuel cur = cur
  | 0 => rfl
  | fuel + 1 => by rw [lengthLoop_succ, if_pos h]

theorem resolvedLength_eq (base : ℕ) :
    (base + numDigits (base + numDigits base) = base + numDigits base ∧
      resolvedLength base = base + numDigits base) ∨
    (base + numDigits (base + numDigits base + 1) = base + numDigits base + 1 ∧
      base + numDigits (base + numDigits base) = base + numDigits base + 1 ∧
      resolvedLength base = base + numDigits base + 1) := by
  by_cases hfix : base + numDigits (base + numDigits base) = base + numDigits base
  · left
    exact ⟨hfix, lengthLoop_of_fix hfix 2⟩
  · right
    have hmono : numDigits base ≤ numDigits (base + numDigits base) :=
      numDigits_mono (by omega)
    have hub : numDigits (base + numDigits base) ≤ numDigits base + 1 :=
      numDigits_base_add base
    have hd0 : numDigits (base + numDigits base) = numDigits base + 1 := by
      omega
    have hfix1 :
        base + numDigits (base + numDigits base + 1) =
          base + numDigits base + 1 := by
      have := numDigits_base_add_one base hd0
      omega
    have hstep : base + numDigits (base + numDigits base) =
        base + numDigits base + 1 := by omega
    refine ⟨hfix1, hstep, ?_⟩
    show lengthLoop base (1 + 1) (base + numDigits base) =
      base + numDigits base + 1
    rw [lengthLoop_succ, if_neg hfix, hstep]
    exact lengthLoop_of_fix hfix1 1

theorem resolvedLength_fix (base : ℕ) :
    base + numDigits (resolvedLength base) = resolvedLength base := by
  rcases resolvedLength_eq base with ⟨h1, h2⟩ | ⟨h1, _, h3⟩
  · rw [h2]; exact h1
  · rw [h3]; exact h1

theorem lengthLoop_eq_resolvedLength (base fuel : ℕ) (h : 2 ≤ fuel) :
    lengthLoop base fuel (base + numDigits base) = resolvedLength base := by
  obtain ⟨k, rfl⟩ : ∃ k, fuel = k + 2 := ⟨fuel - 2, by omega⟩
  rcases resolvedLength_eq base with ⟨h1, h2⟩ | ⟨h1, h2, h3⟩
  · rw [h2]; exact lengthLoop_of_fix h1 (k + 2)
  · rw [h3]
    show lengthLoop base ((k + 1) + 1) (base + numDigits base) =
      base + numDigits base + 1
    have hfix : ¬ base + numDigits (base + numDigits base) =
        base + numDigits base := by omega
    rw [lengthLoop_succ, if_neg hfix, h2]
    exact lengthLoop_of_fix h1 (k + 1)

theorem foldr_eq_ofDigits (L : List ℕ) :
    L.foldr (fun d acc => acc * 10 + d) 0 = Nat.ofDigits 10 L := by
  induction L with
  | nil => simp [Nat.ofDigits_nil]
  | cons d t ih =>
    simp only [List.foldr_cons, Nat.ofDigits_cons, ih]
    ring

theorem decodeDecimal_natDecimalBytes (n : ℕ) :
    decodeDecimal (natDecimalBytes n) = n := by
  by_cases hn : n = 0
  · subst hn; rfl
  · unfold decodeDecimal natDecimalBytes
    rw [if_neg hn, List.map_reverse, List.foldl_reverse, List.foldr_map]
    simp only [Nat.add_sub_cancel_left]
    rw [foldr_eq_ofDigits, natDigits_eq_digits, Nat.ofDigits_digits]

theorem foldl_xor_lt (l : List ℕ) :
    ∀ acc, acc < 256 → (∀ b ∈ l, b < 256) → l.foldl Nat.xor acc < 256 := by
  induction l with
  | nil => intro acc ha _; simpa using ha
  | cons b t ih =>
    intro acc ha hb
    simp only [List.foldl_cons]
    apply ih
    · have h256 : (256 : ℕ) = 2 ^ 8 := by norm_num
      rw [h256] at ha ⊢
      exact Nat.xor_lt_two_pow ha (by rw [← h256]; exact hb b (by simp))
    · intro x hx
      exact hb x (by simp [hx])

theorem xorAll_lt (l : List ℕ) (h : ∀ b ∈ l, b < 256) : xorAll l < 256 :=
  foldl_xor_lt l 0 (by norm_num) h

theorem mem_natDecimalBytes_lt {n b : ℕ} (h : b ∈ natDecimalBytes n) :
    b < 256 := by
  unfold natDecimalBytes at h
  by_cases hn : n = 0
  · rw [if_pos hn] at h
    simp only [List.mem_singleton] at h
    omega
  · rw [if_neg hn] at h
    simp only [List.mem_map, List.mem_reverse] at h
    obtain ⟨d, hd, rfl⟩ := h
    rw [natDigits_eq_digits] at hd
    have : d < 10 := Nat.digits_lt_base (by norm_num) hd
    omega

theorem encodeAscii_mem_lt {s : String} {msg : List ℕ}
    (h : encodeAscii s = some msg) : ∀ b ∈ msg, b < 128 := by
  unfold encodeAscii at h
  by_cases hall : s.toList.all (fun c => decide (c.toNat < 128))
  · rw [if_pos hall] at h
    injection h with h
    subst h
    intro b hb
    simp only [List.mem_map] at hb
    obtain ⟨c, hc, rfl⟩ := hb
    have := List.all_eq_true.mp hall c hc
    simpa using this
  · rw [if_neg hall] at h
    cases h

theorem frameBody_mem_lt {s : String} {msg : List ℕ}
    (hmsg : encodeAscii s = some msg) : ∀ b ∈ frameBody msg, b < 256 := by
  intro b hb
  unfold frameBody at hb
  rcases List.mem_append.mp hb with h1 | h2
  · rcases List.mem_append.mp h1 with h3 | h4
    · rcases List.mem_append.mp h3 with h5 | h6
      · have : b = SOH ∨ b = STX := by simpa using h5
        rcases this with rfl | rfl <;> norm_num [SOH, STX]
      · exact mem_natDecimalBytes_lt h6
    · have := encodeAscii_mem_lt hmsg b h4
      omega
  · have : b = ETX := by simpa using h2
    subst this
    norm_num [ETX]

theorem hexVal_hexDigitByte {d : ℕ} (h : d < 16) :
    hexVal (hexDigitByte d) = d := by
  unfold hexVal hexDigitByte
  split_ifs <;> omega

theorem decodeHexPair_hexByte {x : ℕ} (h : x < 256) :
    decodeHexPair (hexByte x) = x := by
  show hexVal (hexDigitByte (x / 16)) * 16 + hexVal (hexDigitByte (x % 16)) = x
  rw [hexVal_hexDigitByte (show x / 16 < 16 by omega),
    hexVal_hexDigitByte (show x % 16 < 16 by omega)]
  omega

theorem buildFrame_length (msg : List ℕ) :
    (buildFrame msg).length = frameLength msg := by
  have hfix := resolvedLength_fix (baseSizeWithoutLen msg)
  have hbase : baseSizeWithoutLen msg = 1 + 1 + msg.length + 1 + 2 := rfl
  unfold numDigits at hfix
  unfold buildFrame frameBody hexByte frameLength
  simp only [List.length_append, List.length_cons, List.length_singleton,
    List.length_nil]
  omega

/-- C1: for every identity of ascii strings, the frame built by
`_build_payload` embeds a length string that is a fixed point: the number
it denotes equals the total byte count of the whole frame
(SOH + STX + length digits + message + ETX + two checksum digits), and
re-encoding that number reproduces the embedded digit string exactly. -/
theorem C1_length_fixed_point (idn : Identity) (msg : List ℕ)
    (h : encodeAscii (messageString idn) = some msg) :
    build_payload idn = some (buildFrame msg) ∧
    (buildFrame msg).length =
      1 + 1 + (natDecimalBytes (frameLength msg)).length + msg.length + 1 + 2 ∧
    decodeDecimal (natDecimalBytes (frameLength msg)) = (buildFrame msg).length ∧
    natDecimalBytes (decodeDecimal (natDecimalBytes (frameLength msg))) =
      natDecimalBytes (frameLength msg) := by
  refine ⟨by rw [build_payload, h]; rfl, ?_, ?_, ?_⟩
  · unfold buildFrame frameBody hexByte
    simp only [List.length_append, List.length_cons, List.length_singleton,
      List.length_nil]
    try omega
  · rw [decodeDecimal_natDecimalBytes, buildFrame_length]
  · rw [decodeDecimal_natDecimalBytes]

/-- Witness for C1 at a small concrete identity. -/
theorem C1_witness :
    encodeAscii (messageString ⟨"h", "T", "B", "C", "t"⟩) =
      some [124, 84, 124, 66, 124, 116, 124, 67, 124, 48, 124, 48] ∧
    (build_payload ⟨"h", "T", "B", "C", "t"⟩ =
      some (buildFrame [124, 84, 124, 66, 124, 116, 124, 67, 124, 48, 124, 48]) ∧
    (buildFrame [124, 84, 124, 66, 124, 116, 124, 67, 124, 48, 124, 48]).length =
      1 + 1 + (natDecimalBytes (frameLength
        [124, 84, 124, 66, 124, 116, 124, 67, 124, 48, 124, 48])).length +
        [124, 84, 124, 66, 124, 116, 124, 67, 124, 48, 124, 48].length + 1 + 2 ∧
    decodeDecimal (natDecimalBytes (frameLength
        [124, 84, 124, 66, 124, 116, 124, 67, 124, 48, 124, 48])) =
      (buildFrame [124, 84, 124, 66, 124, 116, 124, 67, 124, 48, 124, 48]).length ∧
    natDecimalBytes (decodeDecimal (natDecimalBytes (frameLength
        [124, 84, 124, 66, 124, 116, 124, 67, 124, 48, 124, 48]))) =
      natDecimalBytes (frameLength
        [124, 84, 124, 66, 124, 116, 124, 67, 124, 48, 124, 48])) :=
  ⟨by decide, C1_length_fixed_point ⟨"h", "T", "B", "C", "t"⟩ _ (by decide)⟩

/-- C2: the last two bytes of every built frame are the two lowercase hex
digits of the XOR of all bytes from SOH through ETX, and decoding them back
to one byte and XOR-ing against that running XOR yields zero. -/
theorem C2_checksum (idn : Identity) (p : List ℕ)
    (h : build_payload idn = some p) :
    p.drop (p.length - 2) = hexByte (xorAll (p.take (p.length - 2))) ∧
    Nat.xor (decodeHexPair (p.drop (p.length - 2)))
      (xorAll (p.take (p.length - 2))) = 0 := by
  unfold build_payload at h
  cases he : encodeAscii (messageString idn) with
  | none => rw [he] at h; cases h
  | some msg =>
    rw [he] at h
    simp only [Option.map_some'] at h
    injection h with h
    subst h
    have hlen2 : (hexByte (xorAll (frameBody msg))).length = 2 := rfl
    have hsplit : (buildFrame msg).length - 2 = (frameBody msg).length := by
      unfold buildFrame
      rw [List.length_append, hlen2]
      omega
    have htake :
        (buildFrame msg).take ((buildFrame msg).length - 2) = frameBody msg := by
      rw [hsplit]
      exact List.take_left _ _
    have hdrop :
        (buildFrame msg).drop ((buildFrame msg).length - 2) =
          hexByte (xorAll (frameBody msg)) := by
      rw [hsplit]
      exact List.drop_left _ _
    have hxlt : xorAll (frameBody msg) < 256 :=
      xorAll_lt _ (frameBody_mem_lt he)
    refine ⟨by rw [hdrop, htake], ?_⟩
    rw [hdrop, htake, decodeHexPair_hexByte hxlt]
    exact Nat.xor_self _

/-- Witness for C2 at a small concrete identity. -/
theorem C2_witness :
    build_payload ⟨"h", "T", "B", "C", "t"⟩ =
      some (buildFrame [124, 84, 124, 66, 124, 116, 124, 67, 124, 48, 124, 48]) ∧
    ((buildFrame [124, 84, 124, 66, 124, 116, 124, 67, 124, 48, 124, 48]).drop
        ((buildFrame [124, 84, 124, 66, 124, 116, 124, 67, 124, 48, 124, 48]).length - 2) =
      hexByte (xorAll ((buildFrame
        [124, 84, 124, 66, 124, 116, 124, 67, 124, 48, 124, 48]).take
        ((buildFrame [124, 84, 124, 66, 124, 116, 124, 67, 124, 48, 124, 48]).length - 2))) ∧
    Nat.xor (decodeHexPair ((buildFrame
        [124, 84, 124, 66, 124, 116, 124, 67, 124, 48, 124, 48]).drop
        ((buildFrame [124, 84, 124, 66, 124, 116, 124, 67, 124, 48, 124, 48]).length - 2)))
      (xorAll ((buildFrame [124, 84, 124, 66, 124, 116, 124, 67, 124, 48, 124, 48]).take
        ((buildFrame [124, 84, 124, 66, 124, 116, 124, 67, 124, 48, 124, 48]).length - 2))) = 0) :=
  ⟨by decide, C2_checksum ⟨"h", "T", "B", "C", "t"⟩ _ (by decide)⟩

/-- C9: the fixed-point iteration resolving the length string terminates:
every fuel of at least 2 already returns the stable value, which one more
recomputation (and hence one more decimal rendering) leaves unchanged. -/
theorem C9_iteration_terminates (base fuel : ℕ) (h : 2 ≤ fuel) :
    lengthLoop base fuel (base + numDigits base) = resolvedLength base ∧
    base + numDigits (resolvedLength base) = resolvedLength base ∧
    natDecimalBytes (base + numDigits (resolvedLength base)) =
      natDecimalBytes (resolvedLength base) :=
  ⟨lengthLoop_eq_resolvedLength base fuel h, resolvedLength_fix base,
    by rw [resolvedLength_fix base]⟩

/-- Witness for C9 at base size 13 and fuel 5. -/
theorem C9_witness :
    2 ≤ 5 ∧
    (lengthLoop 13 5 (13 + numDigits 13) = resolvedLength 13 ∧
    13 + numDigits (resolvedLength 13) = resolvedLength 13 ∧
    natDecimalBytes (13 + numDigits (resolvedLength 13)) =
      natDecimalBytes (resolvedLength 13)) :=
  ⟨by decide, C9_iteration_terminates 13 5 (by decide)⟩

/-- The 24 field names of `RESPONSE_LABELS` in `api.py`, in wire order. -/
def RESPONSE_LABELS : List String :=
  ["meter_dev_type", "meter_mac_code", "hhm_dev_type", "hhm_mac_code",
   "A_phase_power", "B_phase_power", "C_phase_power", "total_power",
   "A_chrg_nb", "B_chrg_nb", "C_chrg_nb", "ABC_chrg_nb",
   "wifi_rssi", "info_idx",
   "x_chrg_power", "A_chrg_power", "B_chrg_power", "C_chrg_power",
   "ABC_chrg_power",
   "x_dchrg_power", "A_dchrg_power", "B_dchrg_power", "C_dchrg_power",
   "ABC_dchrg_power"]

/-- Field value in the parsed response mapping: Python `None`, `int` or
`str`. -/
inductive Value where
  | none : Value
  | int : ℤ → Value
  | str : String → Value
deriving DecidableEq

/-- Ascii characters Python's `int(...)` strips around its argument: in
the ascii range CPython strips exactly the space `0x20` and the controls
`0x09`-`0x0d` (FS/GS/RS/US `0x1c`-`0x1f` are NOT stripped and make
`int()` raise `ValueError`). -/
def isPySpace (c : Char) : Bool :=
  decide (c.toNat = 32 ∨ (9 ≤ c.toNat ∧ c.toNat ≤ 13))

/-- Strip leading and trailing whitespace, as Python `int` does. -/
def pyStrip (cs : List Char) : List Char :=
  ((cs.dropWhile isPySpace).reverse.dropWhile isPySpace).reverse

/-- Digit run of Python's base-10 `int` grammar after the first digit: a
single underscore is allowed between two digits only. -/
def pyDigitsGo (acc : ℕ) : List Char → Option ℕ
  | [] => some acc
  | c :: rest =>
    if c.isDigit then pyDigitsGo (acc * 10 + (c.toNat - 48)) rest
    else if c = '_' then
      match rest with
      | d :: rest2 =>
        if d.isDigit then pyDigitsGo (acc * 10 + (d.toNat - 48)) rest2
        else Option.none
      | [] => Option.none
    else Option.none

/-- Unsigned digit part of Python's base-10 `int` grammar: at least one
digit, starting and ending with a digit. -/
def pyIntDigits : List Char → Option ℕ
  | c :: rest =>
    if c.isDigit then pyDigitsGo (c.toNat - 48) rest else Option.none
  | [] => Option.none

/-- Python `int(s)` on an ascii string: optional surrounding whitespace,
optional leading sign, then digits (with single underscores allowed
between digits); `Option.none` models the `ValueError`. -/
def pythonInt (s : String) : Option ℤ :=
  match pyStrip s.toList with
  | '+' :: rest => (pyIntDigits rest).map (fun n => (n : ℤ))
  | '-' :: rest => (pyIntDigits rest).map (fun n => -(n : ℤ))
  | cs => (pyIntDigits cs).map (fun n => (n : ℤ))

/-- Conversion applied to one present segment by the decode loop of
`_decode_response`: the empty string becomes `None`, otherwise `int(val)`,
keeping the raw string on `ValueError`. -/
def typeValue (val : String) : Value :=
  if val = "" then Value.none
  else
    match pythonInt val with
    | some n => Value.int n
    | Option.none => Value.str val

/-- Python `str.split(sep)` on a character list, for a one-character
separator: keeps empty segments, and yields one segment even for the
empty input. -/
def splitSep (sep : Char) : List Char → List (List Char)
  | [] => [[]]
  | c :: rest =>
    if c = sep then [] :: splitSep sep rest
    else
      match splitSep sep rest with
      | [] => [[c]]
      | h :: t => (c :: h) :: t

/-- Decode failures raised inside `_extract_message_ascii`. -/
inductive ExtractErr where
  | noEtx : ExtractErr
  | noSep : ExtractErr
  | notAscii : ExtractErr
deriving DecidableEq

/-- Error text attached by `_decode_response`: the two `ValueError`
messages are literal; the `UnicodeDecodeError` rendering is modelled as a
fixed text, its exact wording being interpreter detail. -/
def extractErrText : ExtractErr → String
  | ExtractErr.noEtx => "ETX not found in response"
  | ExtractErr.noSep => "No '|' separator found in response"
  | ExtractErr.notAscii => "invalid ascii"

/-- `MarstekCtApi._extract_message_ascii`: slice up to the first `ETX`,
keep from the first `|` within that slice, and decode as ascii.  Python's
`index` plus slicing are rendered with `takeWhile`/`dropWhile`, which
agree with them on the indices used here. -/
def extract_message_ascii (data : List ℕ) : Except ExtractErr String :=
  if ETX ∈ data then
    let frame := data.takeWhile (fun b => b != ETX)
    if pipeByte ∈ frame then
      let msgBytes := frame.dropWhile (fun b => b != pipeByte)
      if msgBytes.all (fun b => decide (b < 128)) then
        Except.ok (String.mk (msgBytes.map Char.ofNat))
      else Except.error ExtractErr.notAscii
    else Except.error ExtractErr.noSep
  else Except.error ExtractErr.noEtx

/-- Segment list of `_decode_response`: split the message on `"|"` and
drop the leading empty segment (`message.split("|")[1:]`). -/
def fieldsOf (message : String) : List String :=
  ((splitSep '|' message.toList).map (fun cs => String.mk cs)).drop 1

/-- `MarstekCtApi._derive_signed_battery_power`: discharge minus charge
when both source fields are integers, else `None`. -/
def deriveBattery (parsed : List (String × Value)) : Value :=
  match parsed.lookup "ABC_chrg_power", parsed.lookup "ABC_dchrg_power" with
  | some (Value.int c), some (Value.int d) => Value.int (d - c)
  | _, _ => Value.none

/-- `MarstekCtApi._decode_response`: on extraction failure a single
`"error"` entry; otherwise the zip of labels with typed segments, the
remaining labels padded with `None`, and the derived `battery_power`
appended (dict insertion order). -/
def decode_response (data : List ℕ) : List (String × Value) :=
  match extract_message_ascii data with
  | Except.error e =>
    [("error", Value.str ("Invalid response format: " ++ extractErrText e))]
  | Except.ok message =>
    let fields := fieldsOf message
    let parsed :=
      (RESPONSE_LABELS.zip fields).map (fun lv => (lv.1, typeValue lv.2))
      ++ (RESPONSE_LABELS.drop fields.length).map (fun l => (l, Value.none))
    parsed ++ [("battery_power", deriveBattery parsed)]

/-- Value assigned to field position `i` by the decode loop, given the
segment list: a missing or empty segment gives `None`, otherwise the
typed segment. -/
def valAt (fields : List String) (i : ℕ) : Value :=
  match fields[i]? with
  | some v => typeValue v
  | Option.none => Value.none

theorem valAt_nil (i : ℕ) : valAt [] i = Value.none := by
  simp [valAt]

theorem valAt_cons_succ (f : String) (fs : List String) (i : ℕ) :
    valAt (f :: fs) (i + 1) = valAt fs i := by
  simp [valAt]

theorem zip_pad_eq (ls : List String) :
    ∀ fs : List String,
      (ls.zip fs).map (fun lv => (lv.1, typeValue lv.2))
        ++ (ls.drop fs.length).map (fun l => (l, Value.none))
      = ls.zip ((List.range ls.length).map (valAt fs)) := by
  induction ls with
  | nil => intro fs; simp
  | cons l ls ih =>
    intro fs
    cases fs with
    | nil =>
      rw [List.length_cons, List.range_succ_eq_map]
      simp only [List.zip_nil_right, List.map_nil, List.nil_append,
        List.length_nil, List.drop_zero, List.map_cons, List.map_map,
        List.zip_cons_cons]
      have hcongr : (List.range ls.length).map (valAt [] ∘ Nat.succ)
          = (List.range ls.length).map (valAt []) :=
        List.map_congr_left (fun i _ => by
          simp only [Function.comp_apply]
          rw [valAt_nil, valAt_nil])
      rw [hcongr, ← ih []]
      simp [valAt_nil]
    | cons f fs =>
      simp only [List.length_cons]
      rw [List.range_succ_eq_map]
      simp only [List.zip_cons_cons, List.map_cons,
        List.drop_succ_cons, List.map_map]
      have hcongr : (List.range ls.length).map (valAt (f :: fs) ∘ Nat.succ)
          = (List.range ls.length).map (valAt fs) :=
        List.map_congr_left (fun i _ => by
          simp only [Function.comp_apply]
          rw [valAt_cons_succ])
      rw [hcongr, ← ih fs]
      simp [valAt]

theorem decode_response_ok (data : List ℕ) (message : String)
    (h : extract_message_ascii data = Except.ok message) :
    decode_response data =
      RESPONSE_LABELS.zip
        ((List.range RESPONSE_LABELS.length).map (valAt (fieldsOf message)))
      ++ [("battery_power",
          deriveBattery (RESPONSE_LABELS.zip
            ((List.range RESPONSE_LABELS.length).map
              (valAt (fieldsOf message)))))] := by
  simp only [decode_response, h]
  rw [zip_pad_eq]

theorem lookup_eq_none_of_not_mem_keys (l : List (String × Value)) (k : String)
    (h : k ∉ l.map Prod.fst) : l.lookup k = Option.none := by
  induction l with
  | nil => rfl
  | cons p t ih =>
    simp only [List.map_cons, List.mem_cons] at h
    push_neg at h
    obtain ⟨h1, h2⟩ := h
    cases p with
    | mk a b =>
      rw [List.lookup_cons,
        show (k == a) = false from beq_eq_false_iff_ne.mpr h1]
      exact ih h2

theorem lookup_zip_isSome :
    ∀ (ls : List String) (vs : List Value), ls.length = vs.length →
      ∀ k, k ∈ ls → ∃ v, (ls.zip vs).lookup k = some v := by
  intro ls
  induction ls with
  | nil => intro vs _ k hk; cases hk
  | cons l ls ih =>
    intro vs hlen k hk
    cases vs with
    | nil => simp at hlen
    | cons v vs =>
      by_cases hkl : k = l
      · refine ⟨v, ?_⟩
        rw [List.zip_cons_cons, List.lookup_cons,
          show (k == l) = true from beq_iff_eq.mpr hkl]
      · rw [List.zip_cons_cons, List.lookup_cons,
          show (k == l) = false from beq_eq_false_iff_ne.mpr hkl]
        apply ih vs (by simpa using hlen) k
        rcases List.mem_cons.mp hk with h | h
        · exact absurd h hkl
        · exact h

/-- C10 counterexample: for the well-framed response `[124, 3]` (one empty
segment) the decoded mapping has 25 keys — the 24 labels of
`RESPONSE_LABELS` plus `battery_power` — not the 23-plus-one key set the
claim states. -/
theorem C10_counterexample :
    ((decode_response [124, 3]).map Prod.fst).length = 25 ∧
    ¬ ((decode_response [124, 3]).map Prod.fst).length = 24 := by decide

/-- C10 (amended: the code's label table has 24 fixed names, not 23): for
every well-framed response — however many segments, including more than
24, the extras being silently ignored — the key list of the decoded
mapping is exactly the 24 fixed labels plus `battery_power`, and never
contains `error`. -/
theorem C10_key_set (data : List ℕ) (message : String)
    (h : extract_message_ascii data = Except.ok message) :
    (decode_response data).map Prod.fst =
      RESPONSE_LABELS ++ ["battery_power"] ∧
    "error" ∉ (decode_response data).map Prod.fst ∧
    RESPONSE_LABELS.length = 24 := by
  have hd := decode_response_ok data message h
  have hkeys : (decode_response data).map Prod.fst =
      RESPONSE_LABELS ++ ["battery_power"] := by
    rw [hd, List.map_append, List.map_fst_zip _ _ (by simp)]
    rfl
  refine ⟨hkeys, ?_, rfl⟩
  rw [hkeys]
  decide

/-- Witness for C10 at the concrete well-framed response `[124, 48, 3]`. -/
theorem C10_witness :
    extract_message_ascii [124, 48, 3] = Except.ok "|0" ∧
    ((decode_response [124, 48, 3]).map Prod.fst =
      RESPONSE_LABELS ++ ["battery_power"] ∧
    "error" ∉ (decode_response [124, 48, 3]).map Prod.fst ∧
    RESPONSE_LABELS.length = 24) :=
  ⟨by rfl, C10_key_set [124, 48, 3] "|0" (by rfl)⟩

/-- C6 counterexample: for the well-framed response `"|1|2|3|4|5"` (five
segments) the decoded mapping has 19 label fields explicitly `None`
besides `battery_power`, not the 18 the claim's 23-field count implies. -/
theorem C6_counterexample :
    ((decode_response [124, 49, 124, 50, 124, 51, 124, 52, 124, 53, 3]).filter
        (fun p => decide (p.2 = Value.none) && (p.1 != "battery_power"))).length
      = 19 ∧
    ¬ ((decode_response [124, 49, 124, 50, 124, 51, 124, 52, 124, 53, 3]).filter
        (fun p => decide (p.2 = Value.none) && (p.1 != "battery_power"))).length
      = 18 := by decide

/-- C6 (amended: the code's label table has 24 positions, so a 5-segment
response leaves the remaining 19 — not 18 — fields explicitly `None`):
each position gets `None` when its segment is missing or empty, the parsed
integer when `int` succeeds, and the raw string otherwise, with every
label explicitly present. -/
theorem C6_field_assignment (data : List ℕ) (message : String)
    (h : extract_message_ascii data = Except.ok message) :
    RESPONSE_LABELS.length = 24 ∧
    decode_response data =
      RESPONSE_LABELS.zip
        ((List.range RESPONSE_LABELS.length).map (valAt (fieldsOf message)))
      ++ [("battery_power", deriveBattery
            (RESPONSE_LABELS.zip
              ((List.range RESPONSE_LABELS.length).map
                (valAt (fieldsOf message)))))] ∧
    ((fieldsOf message).length = 5 →
      ∀ i, 5 ≤ i → valAt (fieldsOf message) i = Value.none) := by
  refine ⟨rfl, decode_response_ok data message h, ?_⟩
  intro h5 i hi
  unfold valAt
  rw [List.getElem?_eq_none (by omega)]

/-- Witness for C6 at the concrete five-segment response `"|1|2|3|4|5"`. -/
theorem C6_witness :
    extract_message_ascii [124, 49, 124, 50, 124, 51, 124, 52, 124, 53, 3] =
      Except.ok "|1|2|3|4|5" ∧
    (RESPONSE_LABELS.length = 24 ∧
    decode_response [124, 49, 124, 50, 124, 51, 124, 52, 124, 53, 3] =
      RESPONSE_LABELS.zip
        ((List.range RESPONSE_LABELS.length).map
          (valAt (fieldsOf "|1|2|3|4|5")))
      ++ [("battery_power", deriveBattery
            (RESPONSE_LABELS.zip
              ((List.range RESPONSE_LABELS.length).map
                (valAt (fieldsOf "|1|2|3|4|5")))))] ∧
    ((fieldsOf "|1|2|3|4|5").length = 5 →
      ∀ i, 5 ≤ i → valAt (fieldsOf "|1|2|3|4|5") i = Value.none)) :=
  ⟨by rfl,
    C6_field_assignment [124, 49, 124, 50, 124, 51, 124, 52, 124, 53, 3]
      "|1|2|3|4|5" (by rfl)⟩

/-- C7: in every successfully decoded mapping, `battery_power` is present
and equals `ABC_dchrg_power - ABC_chrg_power` exactly when both source
fields are integers, and is explicitly `None` otherwise. -/
theorem C7_derived_battery (data : List ℕ) (message : String)
    (h : extract_message_ascii data = Except.ok message) :
    (decode_response data).lookup "battery_power" =
      some (match (decode_response data).lookup "ABC_chrg_power",
            (decode_response data).lookup "ABC_dchrg_power" with
        | some (Value.int c), some (Value.int d) => Value.int (d - c)
        | _, _ => Value.none) := by
  have hd := decode_response_ok data message h
  have hbp_none :
      (RESPONSE_LABELS.zip
        ((List.range RESPONSE_LABELS.length).map
          (valAt (fieldsOf message)))).lookup "battery_power" = Option.none := by
    apply lookup_eq_none_of_not_mem_keys
    rw [List.map_fst_zip _ _ (by simp)]
    decide
  obtain ⟨c0, hc0⟩ :=
    lookup_zip_isSome RESPONSE_LABELS
      ((List.range RESPONSE_LABELS.length).map (valAt (fieldsOf message)))
      (by simp) "ABC_chrg_power" (by decide)
  obtain ⟨d0, hd0⟩ :=
    lookup_zip_isSome RESPONSE_LABELS
      ((List.range RESPONSE_LABELS.length).map (valAt (fieldsOf message)))
      (by simp) "ABC_dchrg_power" (by decide)
  rw [hd]
  rw [List.lookup_append, List.lookup_append, List.lookup_append]
  rw [hbp_none, hc0, hd0]
  simp only [Option.none_or, Option.or_some]
  rw [List.lookup_cons_self]
  unfold deriveBattery
  rw [hc0, hd0]

/-- Ascii bytes of a string (used to spell out concrete test inputs). -/
def asciiBytes (s : String) : List ℕ := s.toList.map Char.toNat

/-- Message with 24 segments, all empty except segment 18
(`ABC_chrg_power` = 120) and segment 23 (`ABC_dchrg_power` = 50). -/
def msg7s : String := "|||||||||||||||||||120|||||50"

/-- Witness for C7: charge 120 and discharge 50 give battery power -70. -/
theorem C7_witness :
    extract_message_ascii (asciiBytes msg7s ++ [3]) = Except.ok msg7s ∧
    (decode_response (asciiBytes msg7s ++ [3])).lookup "battery_power" =
      some (Value.int (-70)) :=
  ⟨by rfl,
    (C7_derived_battery (asciiBytes msg7s ++ [3]) msg7s (by rfl)).trans
      (by decide)⟩

/-- Result of one attempt's network interaction inside `fetch_data`:
a datagram within the timeout, a `socket.timeout`, or any other exception
caught by the broad handler. -/
inductive Outcome where
  | recv : List ℕ → Outcome
  | timeout : Outcome
  | err : String → Outcome

/-- `self._retries` (= 3 attempts at most). -/
def retries : ℕ := 3

/-- `self._timeout` (= 3.0 seconds per attempt). -/
def attempt_timeout : ℚ := 3

/-- `self._retry_delay` (= 0.3 seconds between attempts). -/
def retry_delay : ℚ := 3 / 10

/-- The `last_error` text recorded on `socket.timeout`. -/
def timeoutMessage : String := "Timeout - No response from meter"

/-- The `{"error": last_error}` mapping returned once the loop ends
without a response (`last_error` is `None` only if the loop never ran). -/
def errorRecord : Option String → List (String × Value)
  | some m => [("error", Value.str m)]
  | Option.none => [("error", Value.none)]

/-- The retry loop of `fetch_data`: `attempt` is the 1-based loop counter
and `remaining` the number of further attempts allowed after it; the
second component lists the durations of the `time.sleep` calls performed,
in order.  A received datagram is decoded and returned at once; a timeout
or other transport failure records `last_error` and, when attempts remain,
sleeps `retry_delay` and retries. -/
def fetchAux (o : ℕ → Outcome) :
    ℕ → ℕ → Option String → List (String × Value) × List ℚ
  | _, 0, last => (errorRecord last, [])
  | attempt, remaining + 1, last =>
    match o attempt with
    | Outcome.recv data => (decode_response data, [])
    | Outcome.timeout =>
      if remaining = 0 then (errorRecord (some timeoutMessage), [])
      else
        let p := fetchAux o (attempt + 1) remaining (some timeoutMessage)
        (p.1, retry_delay :: p.2)
    | Outcome.err m =>
      if remaining = 0 then
        (errorRecord (some ("Unexpected error: " ++ m)), [])
      else
        let p := fetchAux o (attempt + 1) remaining
          (some ("Unexpected error: " ++ m))
        (p.1, retry_delay :: p.2)

/-- `MarstekCtApi.fetch_data` over the attempt oracle: up to `retries`
attempts, starting at attempt 1 with no error recorded yet. -/
def fetch_data (o : ℕ → Outcome) : List (String × Value) × List ℚ :=
  fetchAux o 1 retries Option.none

theorem fetchAux_succ (o : ℕ → Outcome) (a r : ℕ) (l : Option String) :
    fetchAux o a (r + 1) l =
      match o a with
      | Outcome.recv data => (decode_response data, [])
      | Outcome.timeout =>
        if r = 0 then (errorRecord (some timeoutMessage), [])
        else
          let p := fetchAux o (a + 1) r (some timeoutMessage)
          (p.1, retry_delay :: p.2)
      | Outcome.err m =>
        if r = 0 then (errorRecord (some ("Unexpected error: " ++ m)), [])
        else
          let p := fetchAux o (a + 1) r (some ("Unexpected error: " ++ m))
          (p.1, retry_delay :: p.2) := rfl

theorem fetchAux_recv {o : ℕ → Outcome} {a r : ℕ} {l : Option String}
    {data : List ℕ} (h : o a = Outcome.recv data) :
    fetchAux o a (r + 1) l = (decode_response data, []) := by
  rw [fetchAux_succ, h]

theorem fetchAux_timeout_last {o : ℕ → Outcome} {a : ℕ} {l : Option String}
    (h : o a = Outcome.timeout) :
    fetchAux o a 1 l = (errorRecord (some timeoutMessage), []) := by
  rw [show (1 : ℕ) = 0 + 1 from rfl, fetchAux_succ, h]
  rfl

theorem fetchAux_timeout_step {o : ℕ → Outcome} {a r : ℕ} {l : Option String}
    (h : o a = Outcome.timeout) :
    fetchAux o a (r + 2) l =
      ((fetchAux o (a + 1) (r + 1) (some timeoutMessage)).1,
        retry_delay ::
          (fetchAux o (a + 1) (r + 1) (some timeoutMessage)).2) := by
  rw [show r + 2 = (r + 1) + 1 from rfl, fetchAux_succ, h]
  rfl

theorem fetchAux_err_last {o : ℕ → Outcome} {a : ℕ} {l : Option String}
    {m : String} (h : o a = Outcome.err m) :
    fetchAux o a 1 l =
      (errorRecord (some ("Unexpected error: " ++ m)), []) := by
  rw [show (1 : ℕ) = 0 + 1 from rfl, fetchAux_succ, h]
  rfl

theorem fetchAux_err_step {o : ℕ → Outcome} {a r : ℕ} {l : Option String}
    {m : String} (h : o a = Outcome.err m) :
    fetchAux o a (r + 2) l =
      ((fetchAux o (a + 1) (r + 1) (some ("Unexpected error: " ++ m))).1,
        retry_delay ::
          (fetchAux o (a + 1) (r + 1)
            (some ("Unexpected error: " ++ m))).2) := by
  rw [show r + 2 = (r + 1) + 1 from rfl, fetchAux_succ, h]
  rfl

/-- C3: when the attempts before `k` all fail at transport level and
attempt `k` receives a datagram, `fetch_data` returns the decode result of
that datagram immediately — parsed record and malformed-frame error record
alike — having performed exactly the `k - 1` inter-attempt delays and no
more; a response without `ETX` in particular decodes to the single
malformed-frame error entry, never a partial record. -/
theorem C3_receive_ends_retry (o : ℕ → Outcome) (k : ℕ) (data : List ℕ)
    (hk1 : 1 ≤ k) (hk3 : k ≤ retries) (hrecv : o k = Outcome.recv data)
    (hfail : ∀ j, 1 ≤ j → j < k → ∀ d, o j ≠ Outcome.recv d) :
    fetch_data o = (decode_response data, List.replicate (k - 1) retry_delay) ∧
    (ETX ∉ data →
      decode_response data =
        [("error",
          Value.str "Invalid response format: ETX not found in response")]) := by
  have hk3' : k ≤ 3 := hk3
  constructor
  · show fetchAux o 1 retries Option.none = _
    interval_cases k
    · rw [show retries = 2 + 1 from rfl, fetchAux_recv hrecv]
      rfl
    · rcases h1 : o 1 with d1 | _ | m1
      · exact absurd h1 (hfail 1 le_rfl (by omega) d1)
      · rw [show retries = 1 + 2 from rfl, fetchAux_timeout_step h1,
          show (1 : ℕ) + 1 = 2 from rfl, fetchAux_recv hrecv]
        rfl
      · rw [show retries = 1 + 2 from rfl, fetchAux_err_step h1,
          show (1 : ℕ) + 1 = 2 from rfl, fetchAux_recv hrecv]
        rfl
    · rcases h1 : o 1 with d1 | _ | m1
      · exact absurd h1 (hfail 1 le_rfl (by omega) d1)
      · rcases h2 : o 2 with d2 | _ | m2
        · exact absurd h2 (hfail 2 (by omega) (by omega) d2)
        · rw [show retries = 1 + 2 from rfl, fetchAux_timeout_step h1,
            show (1 : ℕ) + 1 = 2 from rfl, fetchAux_timeout_step h2,
            show (2 : ℕ) + 1 = 3 from rfl, fetchAux_recv hrecv]
          rfl
        · rw [show retries = 1 + 2 from rfl, fetchAux_timeout_step h1,
            show (1 : ℕ) + 1 = 2 from rfl, fetchAux_err_step h2,
            show (2 : ℕ) + 1 = 3 from rfl, fetchAux_recv hrecv]
          rfl
      · rcases h2 : o 2 with d2 | _ | m2
        · exact absurd h2 (hfail 2 (by omega) (by omega) d2)
        · rw [show retries = 1 + 2 from rfl, fetchAux_err_step h1,
            show (1 : ℕ) + 1 = 2 from rfl, fetchAux_timeout_step h2,
            show (2 : ℕ) + 1 = 3 from rfl, fetchAux_recv hrecv]
          rfl
        · rw [show retries = 1 + 2 from rfl, fetchAux_err_step h1,
            show (1 : ℕ) + 1 = 2 from rfl, fetchAux_err_step h2,
            show (2 : ℕ) + 1 = 3 from rfl, fetchAux_recv hrecv]
          rfl
  · intro hetx
    unfold decode_response extract_message_ascii
    rw [if_neg hetx]
    rfl

/-- Attempt oracle for the C3 witness: attempt 1 times out, attempt 2
receives the well-formed frame `"|5" ETX`. -/
def oW : ℕ → Outcome :=
  fun n => if n = 2 then Outcome.recv [124, 53, 3] else Outcome.timeout

/-- Witness for C3: a timeout then a received frame on attempt 2 yields
that frame's decode result after exactly one delay. -/
theorem C3_witness :
    (1 ≤ 2 ∧ 2 ≤ retries ∧ oW 2 = Outcome.recv [124, 53, 3]) ∧
    (fetch_data oW =
      (decode_response [124, 53, 3], List.replicate (2 - 1) retry_delay) ∧
    (ETX ∉ [124, 53, 3] →
      decode_response [124, 53, 3] =
        [("error",
          Value.str "Invalid response format: ETX not found in response")])) :=
  ⟨⟨by decide, by decide, rfl⟩,
    C3_receive_ends_retry oW 2 [124, 53, 3] (by decide) (by decide) rfl
      (by
        intro j hj1 hj2 d
        interval_cases j
        simp [oW])⟩

/-- C4: if all three attempts time out, `fetch_data` returns exactly one
error mapping, whose message is the recorded timeout text, and performs
exactly two (= N - 1) inter-attempt delays of `retry_delay` = 0.3 time
units each. -/
theorem C4_timeout_exhaustion (o : ℕ → Outcome)
    (h1 : o 1 = Outcome.timeout) (h2 : o 2 = Outcome.timeout)
    (h3 : o 3 = Outcome.timeout) :
    fetch_data o =
      ([("error", Value.str timeoutMessage)], [retry_delay, retry_delay]) ∧
    retry_delay = 3 / 10 ∧ retries = 3 := by
  refine ⟨?_, rfl, rfl⟩
  show fetchAux o 1 retries Option.none = _
  rw [show retries = 1 + 2 from rfl, fetchAux_timeout_step h1,
    show (1 : ℕ) + 1 = 2 from rfl, fetchAux_timeout_step (r := 0) h2,
    show (2 : ℕ) + 1 = 3 from rfl, fetchAux_timeout_last h3]
  rfl

/-- Attempt oracle for the C4 witness: every attempt times out. -/
def oT : ℕ → Outcome := fun _ => Outcome.timeout

/-- Witness for C4: three timeouts give one timeout error and two delays. -/
theorem C4_witness :
    (oT 1 = Outcome.timeout ∧ oT 2 = Outcome.timeout ∧
      oT 3 = Outcome.timeout) ∧
    (fetch_data oT =
      ([("error", Value.str timeoutMessage)], [retry_delay, retry_delay]) ∧
    retry_delay = 3 / 10 ∧ retries = 3) :=
  ⟨⟨rfl, rfl, rfl⟩, C4_timeout_exhaustion oT rfl rfl rfl⟩

/-- Join byte segments with the `"|"` byte, as Python `"|".join` does. -/
def joinPipe : List (List ℕ) → List ℕ
  | [] => []
  | [x] => x
  | x :: y :: t => x ++ pipeByte :: joinPipe (y :: t)

/-- Join character segments with `'|'`. -/
def joinChars : List (List Char) → List Char
  | [] => []
  | [x] => x
  | x :: y :: t => x ++ '|' :: joinChars (y :: t)

theorem mem_joinPipe {b : ℕ} :
    ∀ {bss : List (List ℕ)}, b ∈ joinPipe bss →
      b = pipeByte ∨ ∃ bs ∈ bss, b ∈ bs := by
  intro bss
  induction bss with
  | nil => intro h; simp [joinPipe] at h
  | cons x t ih =>
    cases t with
    | nil =>
      intro h
      right
      exact ⟨x, by simp, by simpa [joinPipe] using h⟩
    | cons y t2 =>
      intro h
      rw [joinPipe] at h
      rcases List.mem_append.mp h with hx | hr
      · right; exact ⟨x, by simp, hx⟩
      · rcases List.mem_cons.mp hr with rfl | hj
        · left; rfl
        · rcases ih hj with hp | ⟨bs, hbs, hb⟩
          · left; exact hp
          · right
            refine ⟨bs, ?_, hb⟩
            simp only [List.mem_cons] at hbs ⊢
            tauto

theorem map_ofNat_toNat (x : List Char) :
    x.map (Char.ofNat ∘ Char.toNat) = x := by
  induction x with
  | nil => rfl
  | cons c t ih =>
    simp only [List.map_cons, Function.comp_apply, Char.ofNat_toNat, ih]

theorem ofNat_pipeByte : Char.ofNat pipeByte = '|' := by decide

theorem map_ofNat_joinPipe (css : List (List Char)) :
    (joinPipe (css.map (fun cs => cs.map Char.toNat))).map Char.ofNat =
      joinChars css := by
  induction css with
  | nil => rfl
  | cons x t ih =>
    cases t with
    | nil =>
      show ((x.map Char.toNat).map Char.ofNat) = joinChars [x]
      rw [List.map_map, map_ofNat_toNat]
      rfl
    | cons y t2 =>
      show ((x.map Char.toNat) ++ pipeByte ::
          joinPipe ((y :: t2).map (fun cs => cs.map Char.toNat))).map
            Char.ofNat = x ++ '|' :: joinChars (y :: t2)
      rw [List.map_append, List.map_cons, List.map_map, map_ofNat_toNat,
        ih, ofNat_pipeByte]

theorem splitSep_cons_sep (sep : Char) (cs : List Char) :
    splitSep sep (sep :: cs) = [] :: splitSep sep cs := by
  simp [splitSep]

theorem splitSep_no_sep (sep : Char) :
    ∀ cs, (∀ c ∈ cs, c ≠ sep) → splitSep sep cs = [cs] := by
  intro cs
  induction cs with
  | nil => intro _; rfl
  | cons c t ih =>
    intro h
    have hcs : c ≠ sep := h c (by simp)
    simp only [splitSep]
    rw [if_neg hcs, ih (fun x hx => h x (by simp [hx]))]

theorem splitSep_append_sep (sep : Char) :
    ∀ (l1 l2 : List Char), (∀ c ∈ l1, c ≠ sep) →
      splitSep sep (l1 ++ sep :: l2) = l1 :: splitSep sep l2 := by
  intro l1
  induction l1 with
  | nil =>
    intro l2 _
    simpa using splitSep_cons_sep sep l2
  | cons c t ih =>
    intro l2 hc
    have hcs : c ≠ sep := hc c (by simp)
    have ht := ih l2 (fun x hx => hc x (by simp [hx]))
    simp only [List.cons_append, splitSep]
    rw [if_neg hcs,
      show splitSep sep (t.append (sep :: l2)) = t :: splitSep sep l2
        from ht]

theorem splitSep_joinChars :
    ∀ css : List (List Char), css ≠ [] →
      (∀ cs ∈ css, ∀ c ∈ cs, c ≠ '|') →
      splitSep '|' (joinChars css) = css := by
  intro css
  induction css with
  | nil => intro h _; exact absurd rfl h
  | cons x t ih =>
    intro _ hns
    cases t with
    | nil =>
      show splitSep '|' (joinChars [x]) = [x]
      rw [joinChars]
      exact splitSep_no_sep '|' x (hns x (by simp))
    | cons y t2 =>
      rw [joinChars, splitSep_append_sep '|' x _ (hns x (by simp)),
        ih (by simp) (fun cs hcs c hc => hns cs (by simp [hcs]) c hc)]

theorem extract_constructed (hd : List ℕ) (body : List ℕ)
    (hhdr : ∀ b ∈ hd, b ≠ ETX ∧ b ≠ pipeByte)
    (hbody : ∀ b ∈ body, b ≠ ETX ∧ b < 128) :
    extract_message_ascii (hd ++ pipeByte :: body ++ [ETX]) =
      Except.ok (String.mk ('|' :: body.map Char.ofNat)) := by
  have hmem : ETX ∈ hd ++ pipeByte :: body ++ [ETX] := by simp
  have hall3 : ∀ a ∈ hd ++ pipeByte :: body, (a != ETX) = true := by
    intro a ha
    rcases List.mem_append.mp ha with h | h
    · simpa using (hhdr a h).1
    · rcases List.mem_cons.mp h with rfl | h
      · decide
      · simpa using (hbody a h).1
  have htake :
      (hd ++ pipeByte :: body ++ [ETX]).takeWhile (fun b => b != ETX) =
        hd ++ pipeByte :: body := by
    rw [List.takeWhile_append_of_pos hall3]
    simp [List.takeWhile_cons]
  have hpipe : pipeByte ∈ hd ++ pipeByte :: body := by simp
  have hdrop :
      (hd ++ pipeByte :: body).dropWhile (fun b => b != pipeByte) =
        pipeByte :: body := by
    rw [List.dropWhile_append_of_pos
      (fun a ha => by simpa using (hhdr a ha).2)]
    simp [List.dropWhile_cons]
  have hall : (pipeByte :: body).all (fun b => decide (b < 128)) = true := by
    simp only [List.all_cons, Bool.and_eq_true, List.all_eq_true]
    exact ⟨by decide, fun x hx => by simpa using (hbody x hx).2⟩
  simp only [extract_message_ascii]
  rw [if_pos hmem, htake, if_pos hpipe, hdrop, if_pos hall,
    List.map_cons, ofNat_pipeByte]

theorem zip_map_typeValue (ls ss : List String) :
    (ls.zip ss).map (fun lv => (lv.1, typeValue lv.2)) =
      ls.zip (ss.map typeValue) := by
  induction ls generalizing ss with
  | nil => simp
  | cons l t ih =>
    cases ss with
    | nil => simp
    | cons s ss2 => simp [ih]

/-- C8 counterexample: joining only 23 segments (here all `"7"`) and
decoding yields a mapping with 25 entries — the claim's 23 named values
(plus the derived key) would give 24 — and position 23 holds the extra
24th label `ABC_dchrg_power` with value `None`. -/
theorem C8_counterexample :
    (decode_response (asciiBytes
        "|7|7|7|7|7|7|7|7|7|7|7|7|7|7|7|7|7|7|7|7|7|7|7" ++ [3])).length
      = 25 ∧
    ¬ (decode_response (asciiBytes
        "|7|7|7|7|7|7|7|7|7|7|7|7|7|7|7|7|7|7|7|7|7|7|7" ++ [3])).length
      = 24 ∧
    (decode_response (asciiBytes
        "|7|7|7|7|7|7|7|7|7|7|7|7|7|7|7|7|7|7|7|7|7|7|7" ++ [3]))[23]?
      = some ("ABC_dchrg_power", Value.none) := by
  refine ⟨by decide, by decide, by decide⟩

/-- C8 (amended: the label table has 24 positions, so the round-trip is
over 24 segments): for every list of 24 ascii segments free of `|` and
`ETX` bytes, decoding the frame obtained by joining them with `|`,
prefixing a leading `|` after an arbitrary valid header, and appending
`ETX` reproduces exactly those 24 values in order under the 24 field
names, empty segments becoming `None` and non-numeric ones kept as
strings. -/
theorem C8_round_trip (hd : List ℕ) (segs : List String)
    (hlen : segs.length = 24)
    (hhdr : ∀ b ∈ hd, b ≠ ETX ∧ b ≠ pipeByte)
    (hsegs : ∀ s ∈ segs, ∀ c ∈ s.toList,
      c.toNat < 128 ∧ c ≠ '|' ∧ c.toNat ≠ ETX) :
    decode_response
        (hd ++ pipeByte ::
          joinPipe (segs.map (fun s => s.toList.map Char.toNat)) ++ [ETX]) =
      RESPONSE_LABELS.zip (segs.map typeValue) ++
        [("battery_power",
          deriveBattery (RESPONSE_LABELS.zip (segs.map typeValue)))] := by
  have hbmem : ∀ b ∈ joinPipe (segs.map (fun s => s.toList.map Char.toNat)),
      b ≠ ETX ∧ b < 128 := by
    intro b hb
    rcases mem_joinPipe hb with rfl | ⟨bs, hbs, hbbs⟩
    · exact ⟨by decide, by decide⟩
    · simp only [List.mem_map] at hbs
      obtain ⟨s, hs, rfl⟩ := hbs
      simp only [List.mem_map] at hbbs
      obtain ⟨c, hc, rfl⟩ := hbbs
      obtain ⟨h1, h2, h3⟩ := hsegs s hs c hc
      exact ⟨h3, h1⟩
  have hex := extract_constructed hd _ hhdr hbmem
  have hchars :
      (joinPipe (segs.map (fun s => s.toList.map Char.toNat))).map Char.ofNat
        = joinChars (segs.map String.toList) := by
    have h1 : segs.map (fun s => s.toList.map Char.toNat) =
        (segs.map String.toList).map (fun cs => cs.map Char.toNat) := by
      rw [List.map_map]
      rfl
    rw [h1]
    exact map_ofNat_joinPipe (segs.map String.toList)
  have hfields :
      fieldsOf (String.mk ('|' ::
        (joinPipe (segs.map (fun s => s.toList.map Char.toNat))).map
          Char.ofNat)) = segs := by
    unfold fieldsOf
    rw [show (String.mk ('|' ::
        (joinPipe (segs.map (fun s => s.toList.map Char.toNat))).map
          Char.ofNat)).toList
      = '|' :: (joinPipe (segs.map (fun s => s.toList.map
          Char.toNat))).map Char.ofNat from rfl]
    rw [splitSep_cons_sep, hchars]
    rw [splitSep_joinChars (segs.map String.toList)
      (by
        intro hc
        have := congrArg List.length hc
        simp [hlen] at this)
      (by
        intro cs hcs c hc
        simp only [List.mem_map] at hcs
        obtain ⟨s, hs, rfl⟩ := hcs
        exact (hsegs s hs c hc).2.1)]
    simp only [List.map_cons, List.drop_succ_cons, List.drop_zero,
      List.map_map]
    rw [show (String.mk ∘ String.toList) = id from rfl, List.map_id]
  simp only [decode_response, hex]
  rw [hfields, hlen]
  rw [show RESPONSE_LABELS.drop 24 = [] from rfl]
  simp only [List.map_nil, List.append_nil]
  rw [zip_map_typeValue]

/-- Header for the C8 witness (no `ETX`, no `|`). -/
def hdW : List ℕ := [72, 68]

/-- 24 concrete segments for the C8 witness: a device string, empties, a
negative number, a non-numeric string, and the two battery powers. -/
def segsW : List String :=
  ["HMG-50", "", "-7", "x", "", "", "", "", "", "", "", "",
   "", "", "", "", "", "", "120", "", "", "", "", "50"]

/-- Witness for C8 at a concrete 24-segment response. -/
theorem C8_witness :
    (segsW.length = 24 ∧
      (∀ b ∈ hdW, b ≠ ETX ∧ b ≠ pipeByte) ∧
      (∀ s ∈ segsW, ∀ c ∈ s.toList,
        c.toNat < 128 ∧ c ≠ '|' ∧ c.toNat ≠ ETX)) ∧
    decode_response
        (hdW ++ pipeByte ::
          joinPipe (segsW.map (fun s => s.toList.map Char.toNat)) ++ [ETX]) =
      RESPONSE_LABELS.zip (segsW.map typeValue) ++
        [("battery_power",
          deriveBattery (RESPONSE_LABELS.zip (segsW.map typeValue)))] :=
  ⟨⟨by decide, by decide, by decide⟩,
    C8_round_trip hdW segsW (by decide) (by decide) (by decide)⟩

/-- Does the first list start the second byte-for-byte? -/
def leadsWith : List ℕ → List ℕ → Bool
  | [], _ => true
  | _ :: _, [] => false
  | a :: as, b :: bs => a == b && leadsWith as bs

/-- Does the first list appear as a contiguous substring of the second? -/
def hasSub (pat : List ℕ) : List ℕ → Bool
  | [] => leadsWith pat []
  | b :: rest => leadsWith pat (b :: rest) || hasSub pat rest

/-- Identity of the C5 end-to-end example, exactly as the claim gives it
(hardware addresses with their colons, no normalization anywhere). -/
def id5 : Identity :=
  ⟨"192.0.2.10", "HMG-50", "AA:BB:CC:DD:EE:FF", "11:22:33:44:55:66",
    "HME-4"⟩

/-- Message bytes the codec builds for `id5`: the identifying strings are
embedded verbatim, colons included. -/
def msg5 : List ℕ :=
  asciiBytes "|HMG-50|AA:BB:CC:DD:EE:FF|HME-4|11:22:33:44:55:66|0|0"

/-- C5 counterexample: since the constructor performs no normalization,
the colons of the hardware addresses stay in the frame, and the claimed
colon-free substring `|HMG-50|AABBCCDDEEFF|HME-4|112233445566|0|0` does
NOT occur in the frame built for the claim's identity. -/
theorem C5_counterexample :
    build_payload id5 = some (buildFrame msg5) ∧
    hasSub (asciiBytes "|HMG-50|AABBCCDDEEFF|HME-4|112233445566|0|0")
      (buildFrame msg5) = false :=
  ⟨by decide, by decide⟩

/-- C5 (amended: the embedded substring keeps the addresses verbatim, so
it is `|HMG-50|AA:BB:CC:DD:EE:FF|HME-4|11:22:33:44:55:66|0|0`): the frame
for `id5` begins `0x01 0x02` followed by ascii decimal digits, contains
that substring, and ends in `0x03` plus two lowercase hex digits whose
value is the XOR of all preceding bytes. -/
theorem C5_end_to_end :
    build_payload id5 = some (buildFrame msg5) ∧
    (buildFrame msg5).take 2 = [SOH, STX] ∧
    ((buildFrame msg5).drop 2).take 2 = natDecimalBytes (frameLength msg5) ∧
    (natDecimalBytes (frameLength msg5)).all
      (fun b => decide (48 ≤ b ∧ b ≤ 57)) = true ∧
    hasSub
      (asciiBytes "|HMG-50|AA:BB:CC:DD:EE:FF|HME-4|11:22:33:44:55:66|0|0")
      (buildFrame msg5) = true ∧
    (buildFrame msg5).drop ((buildFrame msg5).length - 3) =
      ETX :: hexByte (xorAll ((buildFrame msg5).take
        ((buildFrame msg5).length - 2))) ∧
    decodeHexPair ((buildFrame msg5).drop ((buildFrame msg5).length - 2)) =
      xorAll ((buildFrame msg5).take ((buildFrame msg5).length - 2)) :=
  ⟨by decide, by decide, by decide, by decide, by decide, by decide,
    by decide⟩

end MarstekCt
